import Mathlib

/-!
# Connection hub of `main.go`

A shallow embedding of the hub (`Manager.run`), the liveness monitor
(`Manager.pingAll`), the two pumps (`Client.readMessages`,
`Client.writeMessages`) and the accept handler (`wsHandler`).

* A Go channel of payloads is a value `Chan` (buffer, capacity, closed flag);
  channels live in a heap `Nat → Chan` and a `Client` holds the reference of
  its `MessageQueue`, as the Go record holds the channel by reference.
* The map `manager.clients` is a function `String → Option Client`.
* A `range` over the map yields every present key once, in an order Go leaves
  unspecified: the order is an explicit argument of the loops.
* A run-time panic (send on a closed channel, close of a closed channel) is
  the result `none` of a hub step.
-/

namespace WsHub

/-! ## Data model -/

/-- Payload of a message: the Go type `[]byte`. -/
abbrev Payload := List UInt8

/-- Conversion `[]byte(s)`: the UTF-8 bytes of a string. -/
def bytesOf (s : String) : Payload := s.toUTF8.data.toList

/-- Buffered channel `chan []byte`: the queued payloads in FIFO order, the
capacity given to `make`, and whether `close` has been called. -/
structure Chan where
  buf : List Payload
  cap : Nat
  closed : Bool
deriving DecidableEq

/-- Record `Client`. `Conn`, `MessageQueue` and `Quit` are references;
`LastPong` is a time in nanoseconds. -/
structure Client where
  ID : String
  Conn : Nat
  LastPong : Int
  MessageQueue : Nat
  Quit : Nat
deriving DecidableEq

/-- State the hub works on: the map `manager.clients` and the heap holding the
channel behind every `MessageQueue` reference. -/
structure HubState where
  clients : String → Option Client
  chans : Nat → Chan

/-- Capacity of `MessageQueue` in `wsHandler`: `make(chan []byte, 256)`. -/
def queueCap : Nat := 256

/-- Result of `make(chan []byte, n)`: an empty open channel. -/
def makeChan (n : Nat) : Chan := { buf := [], cap := n, closed := false }

/-- Heap update: the channel behind reference `r` becomes `ch`. -/
def setChan (chans : Nat → Chan) (r : Nat) (ch : Chan) : Nat → Chan :=
  fun k => if k = r then ch else chans k

/-- Map assignment `clients[id] = client`. -/
def insertClient (clients : String → Option Client) (id : String) (client : Client) :
    String → Option Client :=
  fun k => if k = id then some client else clients k

/-- Map deletion `delete(clients, id)`. -/
def deleteClient (clients : String → Option Client) (id : String) : String → Option Client :=
  fun k => if k = id then none else clients k

/-- The registry `make(map[string]*Client)` of the initial manager. -/
def emptyClients : String → Option Client := fun _ => none

/-! ## Channel operations -/

/-- Outcome of offering a payload to a channel. -/
inductive SendResult where
  | sent (ch : Chan)
  | full
  | panic
deriving DecidableEq

/-- Channel after a payload is appended to its buffer. -/
def Chan.push (ch : Chan) (msg : Payload) : Chan := { ch with buf := ch.buf ++ [msg] }

/-- Channel after `close`: the buffered payloads stay. -/
def Chan.shut (ch : Chan) : Chan := { ch with closed := true }

/-- Send `ch <- msg` on a buffered channel: it panics on a closed channel, it
appends to the buffer when there is room, and otherwise it cannot proceed
(`full`): a plain send then blocks, a `select` with `default` takes the
default branch. -/
def chanSend (msg : Payload) (ch : Chan) : SendResult :=
  if ch.closed then .panic
  else if ch.buf.length < ch.cap then .sent (ch.push msg)
  else .full

/-- Call `close(ch)`: it panics (`none`) on a channel that is already closed. -/
def closeChan (ch : Chan) : Option Chan :=
  if ch.closed then none else some ch.shut

/-! ## The hub: `Manager.run` -/

/-- Case `client := <-manager.register`: `manager.clients[client.ID] = client`. -/
def registerStep (client : Client) (s : HubState) : HubState :=
  { s with clients := insertClient s.clients client.ID client }

/-- Case `client := <-manager.unregister`: when `client.ID` is a key of the
map the entry is deleted and `client.MessageQueue` is closed. -/
def unregisterStep (client : Client) (s : HubState) : Option HubState :=
  match s.clients client.ID with
  | some _ =>
    (closeChan (s.chans client.MessageQueue)).map fun ch =>
      { clients := deleteClient s.clients client.ID,
        chans := setChan s.chans client.MessageQueue ch }
  | none => some s

/-- Body of the broadcast loop for the entry `id, client`: the `select` sends
`msg` on `client.MessageQueue`; its `default` branch closes that channel and
deletes `id` from the map. -/
def broadcastClient (msg : Payload) (id : String) (client : Client) (s : HubState) :
    Option HubState :=
  match chanSend msg (s.chans client.MessageQueue) with
  | .sent ch => some { s with chans := setChan s.chans client.MessageQueue ch }
  | .full =>
    (closeChan (s.chans client.MessageQueue)).map fun ch =>
      { clients := deleteClient s.clients id,
        chans := setChan s.chans client.MessageQueue ch }
  | .panic => none

/-- Case `msg := <-manager.broadcast`: the loop
`for id, client := range manager.clients`, visiting the keys in `order`.
A key whose entry is gone when its turn comes is not produced. -/
def broadcastOver (msg : Payload) : List String → HubState → Option HubState
  | [], s => some s
  | id :: rest, s =>
    match s.clients id with
    | none => broadcastOver msg rest s
    | some client => (broadcastClient msg id client s).bind (broadcastOver msg rest)

/-- An order in which `range manager.clients` may yield the keys: every key
of the map exactly once. -/
def RangeOrder (order : List String) (s : HubState) : Prop :=
  order.Nodup ∧ ∀ id, id ∈ order ↔ ∃ c, s.clients id = some c

/-- Events the loop of `Manager.run` receives. A broadcast carries the order
in which its `range` visits the keys. -/
inductive Event where
  | register (client : Client)
  | unregister (client : Client)
  | broadcast (msg : Payload) (order : List String)

/-- One iteration of the `for`/`select` loop of `Manager.run`. -/
def hubStep (e : Event) (s : HubState) : Option HubState :=
  match e with
  | .register client => some (registerStep client s)
  | .unregister client => unregisterStep client s
  | .broadcast msg order => broadcastOver msg order s

/-- The loop of `Manager.run` over a finite sequence of events. -/
def runHub : List Event → HubState → Option HubState
  | [], s => some s
  | e :: rest, s => (hubStep e s).bind (runHub rest)

/-- Clients of the register events, in order. -/
def registered : List Event → List Client
  | [] => []
  | .register c :: rest => c :: registered rest
  | _ :: rest => registered rest

/-- Clients of the unregister events, in order. -/
def unregistered : List Event → List Client
  | [] => []
  | .unregister c :: rest => c :: unregistered rest
  | _ :: rest => unregistered rest

/-- Registry invariant: a registered client has an open queue, and two
different keys never hold the same channel. -/
def HubInv (s : HubState) : Prop :=
  (∀ id c, s.clients id = some c → (s.chans c.MessageQueue).closed = false) ∧
  (∀ id1 id2 c1 c2, s.clients id1 = some c1 → s.clients id2 = some c2 →
    c1.MessageQueue = c2.MessageQueue → id1 = id2)

/-- Two clients made by different `wsHandler` calls: different ids and
different queues. -/
def Distinct (a b : Client) : Prop := a.ID ≠ b.ID ∧ a.MessageQueue ≠ b.MessageQueue

/-- Invariant of a hub run, relative to the clients `all` the run registers
and the clients `fut` it has still to register: a registered client sits
under its own id, is none of the clients to come and has an open queue; the
clients to come have open queues. -/
def TraceInv (all fut : List Client) (s : HubState) : Prop :=
  (∀ id c, s.clients id = some c →
    c.ID = id ∧ c ∈ all ∧ c ∉ fut ∧ (s.chans c.MessageQueue).closed = false) ∧
  (∀ c, c ∈ fut → c ∈ all ∧ (s.chans c.MessageQueue).closed = false)

/-! ## The liveness monitor: `Manager.pingAll` -/

/-- Duration `time.Second` in nanoseconds. -/
def second : Int := 1000000000

/-- What one pass of the monitor meets outside the registry: the clock, the
answer of `Conn.WriteControl(PingMessage, ...)` for each connection, and for
each `Quit` channel whether a goroutine is receiving on it (the `select` of a
running `writeMessages`; `Quit` is unbuffered, `make(chan bool)`). -/
structure PingEnv where
  now : Int
  writeControlErr : Nat → Bool
  receiving : Nat → Bool

/-- Record of a pass: the ids a ping was written to and the ids whose
`client.Quit <- true` was delivered, each in visiting order. -/
structure PassLog where
  probed : List String
  signalled : List String
deriving DecidableEq

/-- Result of the loop body for one client. -/
inductive BodyResult where
  | next (log : PassLog)
  | stuck (log : PassLog)
deriving DecidableEq

/-- Statement `client.Quit <- true`: a send on an unbuffered channel, which
completes only when a receiver takes the value. -/
def quitSend (env : PingEnv) (id : String) (client : Client) (log : PassLog) : BodyResult :=
  if env.receiving client.Quit then .next { log with signalled := log.signalled ++ [id] }
  else .stuck log

/-- Body of the loop of `pingAll` for the entry `id, client`. -/
def pingClient (env : PingEnv) (id : String) (client : Client) (log : PassLog) : BodyResult :=
  if env.now - client.LastPong > 60 * second then
    quitSend env id client log
  else
    let log1 : PassLog := { log with probed := log.probed ++ [id] }
    if env.writeControlErr client.Conn then quitSend env id client log1
    else .next log1

/-- Result of one pass: the mutex is released after the last client, or the
pass is blocked for ever in the `Quit` send to client `id`, holding the mutex. -/
inductive PassResult where
  | unlocked (log : PassLog)
  | blocked (id : String) (log : PassLog)
deriving DecidableEq

/-- One tick of `pingAll`: `for id, client := range manager.clients` between
`Lock` and `Unlock`, visiting the keys in `order`. -/
def pingAllOver (env : PingEnv) (clients : String → Option Client) :
    List String → PassLog → PassResult
  | [], log => .unlocked log
  | id :: rest, log =>
    match clients id with
    | none => pingAllOver env clients rest log
    | some client =>
      match pingClient env id client log with
      | .next log1 => pingAllOver env clients rest log1
      | .stuck log1 => .blocked id log1

/-- The log a pass starts with. -/
def emptyLog : PassLog := { probed := [], signalled := [] }

/-- Log of a pass result. -/
def PassResult.log : PassResult → PassLog
  | .unlocked log => log
  | .blocked _ log => log

/-- Whether the monitor finds the client timed out:
`time.Since(client.LastPong) > 60*time.Second`. -/
def timedOut (env : PingEnv) (c : Client) : Bool :=
  decide (env.now - c.LastPong > 60 * second)

/-- Whether `id` is registered to a client the monitor has cause to signal:
timed out, or its ping cannot be written. -/
def quitDue (env : PingEnv) (clients : String → Option Client) (id : String) : Bool :=
  match clients id with
  | some c => timedOut env c || env.writeControlErr c.Conn
  | none => false

/-- Whether `id` is registered to a client that is not timed out. -/
def probeDue (env : PingEnv) (clients : String → Option Client) (id : String) : Bool :=
  match clients id with
  | some c => !timedOut env c
  | none => false

/-! ## The write pump: `Client.writeMessages` -/

/-- Message handed to the transport by the write pump. -/
inductive Frame where
  | text (bytes : Payload)
  | ping
  | close
deriving DecidableEq

/-- Answers of the transport during one iteration of the write pump:
whether `NextWriter`, `w.Close` and `WriteMessage(PingMessage, nil)` return
an error. -/
structure ConnAnswers where
  nextWriterErr : Bool
  closeErr : Bool
  pingErr : Bool
deriving DecidableEq

/-- Outcome of a receive `<-ch`. -/
inductive RecvResult where
  | value (msg : Payload) (ch : Chan)
  | drained
  | empty
deriving DecidableEq

/-- Receive `<-ch`: the head of the buffer when there is one; on an empty
channel the receive reports `ok = false` when the channel is closed
(`drained`) and cannot proceed otherwise (`empty`). -/
def chanRecv (ch : Chan) : RecvResult :=
  match ch.buf with
  | m :: rest => .value m { ch with buf := rest }
  | [] => if ch.closed then .drained else .empty

/-- The loop `for i := 0; i < n; i++ { w.Write('\n'); w.Write(<-queue) }`
writing into the bytes `w` of the open message. A receive from a closed empty
channel yields `nil`; a receive from an open empty channel blocks (`none`). -/
def coalesce : Nat → Chan → Payload → Option (Payload × Chan)
  | 0, ch, w => some (w, ch)
  | n + 1, ch, w =>
    match chanRecv ch with
    | .value m ch1 => coalesce n ch1 (w ++ [10] ++ m)
    | .drained => coalesce n ch (w ++ [10])
    | .empty => none

/-- Cases of the `select` of the write pump. -/
inductive PumpCase where
  | queue
  | ticker
  | quit
deriving DecidableEq

/-- State after one iteration of the write pump: whether the loop goes on
(`false`: the function returned and the deferred `Conn.Close` ran), the
messages the transport accepted in this iteration, and the queue. -/
structure PumpResult where
  running : Bool
  frames : List Frame
  queue : Chan
deriving DecidableEq

/-- One iteration of the loop of `writeMessages` taking the given `select`
case; `none` when that case cannot proceed. A write the transport answers
with an error emits no message and makes the pump return: `NextWriter`
failing before anything is written, `w.Close` failing after the payloads were
taken from the queue, `WriteMessage(PingMessage, nil)` failing on the tick. -/
def writeMessagesStep (case : PumpCase) (conn : ConnAnswers) (ch : Chan) : Option PumpResult :=
  match case with
  | .queue =>
    match chanRecv ch with
    | .empty => none
    | .drained => some { running := false, frames := [.close], queue := ch }
    | .value message ch1 =>
      if conn.nextWriterErr then some { running := false, frames := [], queue := ch1 }
      else
        match coalesce ch1.buf.length ch1 message with
        | none => none
        | some (w, ch2) =>
          if conn.closeErr then some { running := false, frames := [], queue := ch2 }
          else some { running := true, frames := [.text w], queue := ch2 }
  | .ticker =>
    if conn.pingErr then some { running := false, frames := [], queue := ch }
    else some { running := true, frames := [.ping], queue := ch }
  | .quit => some { running := false, frames := [], queue := ch }

/-! ## The read pump and the accept handler -/

/-- Outcome of a step that may block or panic. -/
inductive Outcome where
  | ok (s : HubState)
  | blocked
  | panic

/-- Plain send `queue <- msg` on the channel behind reference `r`. -/
def blockingSend (msg : Payload) (r : Nat) (s : HubState) : Outcome :=
  match chanSend msg (s.chans r) with
  | .sent ch => .ok { s with chans := setChan s.chans r ch }
  | .full => .blocked
  | .panic => .panic

/-- One iteration of the loop of `readMessages` after `Conn.ReadMessage`
returned `message` without error: the message is logged and then sent on the
client's own queue, `client.MessageQueue <- message`. -/
def readMessagesStep (client : Client) (message : Payload) (s : HubState) : Outcome :=
  blockingSend message client.MessageQueue s

/-- Payload `[]byte(fmt.Sprintf("Welcome! Your ID is: %s", id))`. -/
def welcomePayload (id : String) : Payload := bytesOf ("Welcome! Your ID is: " ++ id)

/-- Client built by `wsHandler`: `id` is the value of `uuid.New().String()`,
`conn` the upgraded connection, `now` the value of `time.Now()`, and `queue`,
`quit` the references returned by the two calls of `make`. The heap gets the
new empty queue of capacity 256. -/
def wsHandlerMake (id : String) (conn : Nat) (now : Int) (queue quit : Nat) (s : HubState) :
    Client × HubState :=
  ({ ID := id, Conn := conn, LastPong := now, MessageQueue := queue, Quit := quit },
   { s with chans := setChan s.chans queue (makeChan queueCap) })

/-- Statement `client.MessageQueue <- []byte(welcome)` of `wsHandler`. -/
def welcomeStep (client : Client) (s : HubState) : Outcome :=
  blockingSend (welcomePayload client.ID) client.MessageQueue s

/-- Atomic steps of the goroutines that touch the queues before the pumps
drain them: an iteration of the hub loop, the welcome send of the handler,
and an iteration of the read pump that received `message`.
The handler's `manager.register <- client` is a rendezvous with the hub's
receive, so `hub (register c)` stands for both, and `welcome c` can only
follow it. -/
inductive Action where
  | hub (e : Event)
  | welcome (client : Client)
  | received (client : Client) (message : Payload)

/-- Effect of one action. -/
def stepAction (a : Action) (s : HubState) : Outcome :=
  match a with
  | .hub e =>
    match hubStep e s with
    | some s1 => .ok s1
    | none => .panic
  | .welcome client => welcomeStep client s
  | .received client message => readMessagesStep client message s

/-- Effect of a schedule, a sequence of actions in the order they happen. -/
def runActions : List Action → HubState → Outcome
  | [], s => .ok s
  | a :: rest, s =>
    match stepAction a s with
    | .ok s1 => runActions rest s1
    | .blocked => .blocked
    | .panic => .panic

/-- Buffer of the channel behind `r` after an outcome, when there is a state. -/
def Outcome.queueOf (r : Nat) : Outcome → Option (List Payload)
  | .ok s => some (s.chans r).buf
  | .blocked => none
  | .panic => none

/-- The manager at start-up: an empty map; no channel has been made yet. -/
def initState : HubState :=
  { clients := emptyClients, chans := fun _ => makeChan 0 }

/-! ## Sample states -/

/-- Client `a` as `wsHandler` builds it, with queue reference 0. -/
def clientA : Client := { ID := "a", Conn := 0, LastPong := 0, MessageQueue := 0, Quit := 1 }

/-- Client `b` as `wsHandler` builds it, with queue reference 2. -/
def clientB : Client := { ID := "b", Conn := 1, LastPong := 0, MessageQueue := 2, Quit := 3 }

/-- Registry holding `a` and `b`, both with an empty queue of capacity 256. -/
def twoClients : HubState :=
  registerStep clientB (wsHandlerMake "b" 1 0 2 3
    (registerStep clientA (wsHandlerMake "a" 0 0 0 1 initState).2)).2

/-- Registry holding `a` and `b` where the queue of `a` holds 256 payloads. -/
def oneFull : HubState :=
  { twoClients with
    chans := setChan twoClients.chans 0
      { buf := List.replicate 256 [120], cap := queueCap, closed := false } }

/-- Client with the id of `clientA` and channels of its own: what a second
`wsHandler` call would build if `uuid.New` repeated an id. -/
def clientA2 : Client := { ID := "a", Conn := 2, LastPong := 0, MessageQueue := 4, Quit := 5 }

/-- Heap after `wsHandler` has made the queues of `a` and `b`; nobody is
registered yet. -/
def twoMade : HubState :=
  (wsHandlerMake "b" 1 0 2 3 (wsHandlerMake "a" 0 0 0 1 initState).2).2

/-- A run of the hub: both clients register, a broadcast, `a` unregisters
twice, a second broadcast, `b` unregisters. -/
def sampleEvents : List Event :=
  [.register clientA, .register clientB, .broadcast [104, 105] ["a", "b"],
   .unregister clientA, .unregister clientA, .broadcast [104, 105] ["b", "a"],
   .unregister clientB]

/-- State in which `wsHandler` has made client `a` and is about to send it on
`manager.register`. -/
def madeA : HubState := (wsHandlerMake "a" 0 0 0 1 initState).2

/-- Schedule: `a` registers and gets its welcome, its read pump receives
`ping`, then the hub broadcasts `hello`. -/
def echoSchedule : List Action :=
  [.hub (.register clientA), .welcome clientA, .received clientA (bytesOf "ping"),
   .hub (.broadcast (bytesOf "hello") ["a"])]

/-- Schedule: the hub processes the registration of `a` and a broadcast of
`hello` before the handler reaches its welcome send. -/
def lateWelcome : List Action :=
  [.hub (.register clientA), .hub (.broadcast (bytesOf "hello") ["a"]), .welcome clientA]

/-- First iteration of the write pump of `a` when `NextWriter` fails: the
pump takes the welcome from the queue and returns. -/
def failedPump : Option PumpResult :=
  writeMessagesStep .queue { nextWriterErr := true, closeErr := false, pingErr := false }
    { buf := [welcomePayload "a"], cap := queueCap, closed := false }

/-- Monitor tick one second after both clients connected, the write pump of
`a` having returned as in `failedPump`: its deferred `Conn.Close` makes the
ping on connection 0 fail, and nobody receives on its `Quit` channel 1. -/
def tickAfterFailure : PingEnv :=
  { now := second,
    writeControlErr := fun conn => decide (conn = 0),
    receiving := fun quit =>
      if quit = 1 then (failedPump.map fun r => r.running) == some true else true }

/-- Monitor tick exactly 60 seconds after both clients connected: both write
pumps are running, the ping on connection 0 cannot be written. -/
def tickBoundary : PingEnv :=
  { now := 60 * second, writeControlErr := fun conn => decide (conn = 0),
    receiving := fun _ => true }

/-! ## Lemmas on the broadcast loop -/

theorem setChan_same (chans : Nat → Chan) (r : Nat) (ch : Chan) : setChan chans r ch r = ch := by
  simp [setChan]

theorem setChan_other (chans : Nat → Chan) (r k : Nat) (ch : Chan) (h : k ≠ r) :
    setChan chans r ch k = chans k := by
  simp [setChan, h]

theorem broadcastClient_room (msg : Payload) (id : String) (c : Client) (s : HubState)
    (hopen : (s.chans c.MessageQueue).closed = false)
    (hroom : (s.chans c.MessageQueue).buf.length < (s.chans c.MessageQueue).cap) :
    broadcastClient msg id c s =
      some { s with
        chans := setChan s.chans c.MessageQueue ((s.chans c.MessageQueue).push msg) } := by
  simp [broadcastClient, chanSend, hopen, hroom]

theorem broadcastClient_full (msg : Payload) (id : String) (c : Client) (s : HubState)
    (hopen : (s.chans c.MessageQueue).closed = false)
    (hfull : ¬ (s.chans c.MessageQueue).buf.length < (s.chans c.MessageQueue).cap) :
    broadcastClient msg id c s =
      some { clients := deleteClient s.clients id,
             chans := setChan s.chans c.MessageQueue ((s.chans c.MessageQueue).shut) } := by
  simp [broadcastClient, chanSend, closeChan, hopen, hfull]

/-- The broadcast loop over keys without repetition, from a state satisfying
the registry invariant: it does not panic; a visited client with room keeps its
entry and gets `msg` at the tail of its queue; a visited client with a full
queue loses its entry and has its queue closed, contents untouched; entries
and channels not visited are as before. -/
theorem broadcastOver_spec (msg : Payload) (l : List String) :
    ∀ s : HubState, l.Nodup → HubInv s →
      ∃ s1 : HubState, broadcastOver msg l s = some s1 ∧
        (∀ id, id ∉ l → s1.clients id = s.clients id) ∧
        (∀ id c, id ∈ l → s.clients id = some c →
          (s.chans c.MessageQueue).buf.length < (s.chans c.MessageQueue).cap →
          s1.clients id = some c ∧
          s1.chans c.MessageQueue = (s.chans c.MessageQueue).push msg) ∧
        (∀ id c, id ∈ l → s.clients id = some c →
          ¬ (s.chans c.MessageQueue).buf.length < (s.chans c.MessageQueue).cap →
          s1.clients id = none ∧
          s1.chans c.MessageQueue = (s.chans c.MessageQueue).shut) ∧
        (∀ id, s.clients id = none → s1.clients id = none) ∧
        (∀ q, (∀ id c, id ∈ l → s.clients id = some c → c.MessageQueue ≠ q) →
          s1.chans q = s.chans q) := by
  induction l with
  | nil =>
    intro s _ _
    refine ⟨s, rfl, fun _ _ => rfl, ?_, ?_, fun _ h => h, fun _ _ => rfl⟩
    · intro id c h; simp at h
    · intro id c h; simp at h
  | cons a rest ih =>
    intro s hnd hinv
    have hna : a ∉ rest := (List.nodup_cons.mp hnd).1
    have hnr : rest.Nodup := (List.nodup_cons.mp hnd).2
    cases hca : s.clients a with
    | none =>
      obtain ⟨s1, hrun, hout, hroom, hfull, hnone, hq⟩ := ih s hnr hinv
      refine ⟨s1, ?_, ?_, ?_, ?_, hnone, ?_⟩
      · simp [broadcastOver, hca, hrun]
      · intro id hid
        exact hout id (fun h => hid (List.mem_cons_of_mem _ h))
      · intro id c hid hc hlt
        rcases List.mem_cons.mp hid with h | h
        · subst h; rw [hca] at hc; exact absurd hc (by simp)
        · exact hroom id c h hc hlt
      · intro id c hid hc hlt
        rcases List.mem_cons.mp hid with h | h
        · subst h; rw [hca] at hc; exact absurd hc (by simp)
        · exact hfull id c h hc hlt
      · intro q hqn
        exact hq q (fun id c hid hc => hqn id c (List.mem_cons_of_mem _ hid) hc)
    | some ca =>
      have hopen : (s.chans ca.MessageQueue).closed = false := hinv.1 a ca hca
      -- a registered client other than `a` has another channel
      have hsep : ∀ id c, id ≠ a → s.clients id = some c → c.MessageQueue ≠ ca.MessageQueue := by
        intro id c hne hc heq
        exact hne (hinv.2 id a c ca hc hca heq)
      by_cases hlt : (s.chans ca.MessageQueue).buf.length < (s.chans ca.MessageQueue).cap
      · -- the send succeeds
        let s0 : HubState :=
          ⟨s.clients, setChan s.chans ca.MessageQueue ((s.chans ca.MessageQueue).push msg)⟩
        have hstep : broadcastClient msg a ca s = some s0 := broadcastClient_room msg a ca s hopen hlt
        have hinv0 : HubInv s0 := by
          refine ⟨?_, hinv.2⟩
          intro id c hc
          show (setChan s.chans ca.MessageQueue _ c.MessageQueue).closed = false
          by_cases hq : c.MessageQueue = ca.MessageQueue
          · rw [hq, setChan_same]; exact hopen
          · rw [setChan_other _ _ _ _ hq]; exact hinv.1 id c hc
        obtain ⟨s1, hrun, hout, hroom, hfull, hnone, hq⟩ := ih s0 hnr hinv0
        have hrest : ∀ id c, id ∈ rest → s.clients id = some c →
            s0.chans c.MessageQueue = s.chans c.MessageQueue := by
          intro id c hid hc
          have hne : id ≠ a := fun h => hna (h ▸ hid)
          exact setChan_other _ _ _ _ (hsep id c hne hc)
        refine ⟨s1, ?_, ?_, ?_, ?_, hnone, ?_⟩
        · simp [broadcastOver, hca, hstep, hrun]
        · intro id hid
          exact hout id (fun h => hid (List.mem_cons_of_mem _ h))
        · intro id c hid hc hl
          rcases List.mem_cons.mp hid with h | h
          · subst h
            rw [hca] at hc
            cases hc
            refine ⟨(hout id hna).trans hca, ?_⟩
            rw [hq ca.MessageQueue]
            · exact setChan_same _ _ _
            · intro id2 c2 hid2 hc2
              exact hsep id2 c2 (fun h => hna (h ▸ hid2)) hc2
          · have h0 := hrest id c h hc
            have := hroom id c h hc (by rw [h0]; exact hl)
            rw [h0] at this
            exact this
        · intro id c hid hc hl
          rcases List.mem_cons.mp hid with h | h
          · subst h
            rw [hca] at hc
            cases hc
            exact absurd hlt hl
          · have h0 := hrest id c h hc
            have := hfull id c h hc (by rw [h0]; exact hl)
            rw [h0] at this
            exact this
        · intro q hqn
          rw [hq q (fun id c hid hc => hqn id c (List.mem_cons_of_mem _ hid) hc)]
          exact setChan_other _ _ _ _ (fun h => hqn a ca (List.mem_cons_self _ _) hca h.symm)
      · -- the queue is full: the default branch evicts
        let s0 : HubState :=
          ⟨deleteClient s.clients a, setChan s.chans ca.MessageQueue ((s.chans ca.MessageQueue).shut)⟩
        have hstep : broadcastClient msg a ca s = some s0 := broadcastClient_full msg a ca s hopen hlt
        have hcl : ∀ id, id ≠ a → s0.clients id = s.clients id := by
          intro id hne
          show deleteClient s.clients a id = s.clients id
          simp [deleteClient, hne]
        have hcla : s0.clients a = none := by
          show deleteClient s.clients a a = none
          simp [deleteClient]
        have hsub : ∀ id c, s0.clients id = some c → id ≠ a ∧ s.clients id = some c := by
          intro id c hc
          by_cases hne : id = a
          · subst hne; rw [hcla] at hc; exact absurd hc (by simp)
          · exact ⟨hne, (hcl id hne) ▸ hc⟩
        have hinv0 : HubInv s0 := by
          refine ⟨?_, ?_⟩
          · intro id c hc
            obtain ⟨hne, hc0⟩ := hsub id c hc
            show (setChan s.chans ca.MessageQueue _ c.MessageQueue).closed = false
            rw [setChan_other _ _ _ _ (hsep id c hne hc0)]
            exact hinv.1 id c hc0
          · intro id1 id2 c1 c2 h1 h2 heq
            exact hinv.2 id1 id2 c1 c2 (hsub id1 c1 h1).2 (hsub id2 c2 h2).2 heq
        obtain ⟨s1, hrun, hout, hroom, hfull, hnone, hq⟩ := ih s0 hnr hinv0
        have hrest : ∀ id c, id ∈ rest → s.clients id = some c →
            s0.clients id = some c ∧ s0.chans c.MessageQueue = s.chans c.MessageQueue := by
          intro id c hid hc
          have hne : id ≠ a := fun h => hna (h ▸ hid)
          exact ⟨(hcl id hne).trans hc, setChan_other _ _ _ _ (hsep id c hne hc)⟩
        refine ⟨s1, ?_, ?_, ?_, ?_, ?_, ?_⟩
        · simp [broadcastOver, hca, hstep, hrun]
        · intro id hid
          have hne : id ≠ a := fun h => hid (h ▸ List.mem_cons_self _ _)
          rw [hout id (fun h => hid (List.mem_cons_of_mem _ h))]
          exact hcl id hne
        · intro id c hid hc hl
          rcases List.mem_cons.mp hid with h | h
          · subst h
            rw [hca] at hc
            cases hc
            exact absurd hl hlt
          · obtain ⟨hc0, h0⟩ := hrest id c h hc
            have := hroom id c h hc0 (by rw [h0]; exact hl)
            rw [h0] at this
            exact this
        · intro id c hid hc hl
          rcases List.mem_cons.mp hid with h | h
          · subst h
            rw [hca] at hc
            cases hc
            refine ⟨hnone id hcla, ?_⟩
            rw [hq ca.MessageQueue]
            · exact setChan_same _ _ _
            · intro id2 c2 hid2 hc2
              obtain ⟨hne, hc0⟩ := hsub id2 c2 hc2
              exact hsep id2 c2 hne hc0
          · obtain ⟨hc0, h0⟩ := hrest id c h hc
            have := hfull id c h hc0 (by rw [h0]; exact hl)
            rw [h0] at this
            exact this
        · intro id hn
          apply hnone
          by_cases hne : id = a
          · subst hne; exact hcla
          · rw [hcl id hne]; exact hn
        · intro q hqn
          rw [hq q]
          · exact setChan_other _ _ _ _ (fun h => hqn a ca (List.mem_cons_self _ _) hca h.symm)
          · intro id c hid hc
            obtain ⟨hne, hc0⟩ := hsub id c hc
            exact hqn id c (List.mem_cons_of_mem _ hid) hc0

theorem twoClients_clients (id : String) :
    twoClients.clients id =
      if id = "b" then some clientB else if id = "a" then some clientA else none := by
  simp [twoClients, registerStep, wsHandlerMake, insertClient, initState, emptyClients,
    clientA, clientB]

theorem twoClients_rangeOrder (s : HubState) (h : s.clients = twoClients.clients) :
    RangeOrder ["b", "a"] s := by
  refine ⟨by decide, ?_⟩
  intro id
  rw [h, twoClients_clients]
  by_cases hb : id = "b"
  · simp [hb]
  · by_cases ha : id = "a"
    · simp [ha]
    · simp [hb, ha]

theorem twoClients_inv (s : HubState) (h : s.clients = twoClients.clients)
    (h0 : (s.chans 0).closed = false) (h2 : (s.chans 2).closed = false) : HubInv s := by
  refine ⟨?_, ?_⟩
  · intro id c hc
    rw [h, twoClients_clients] at hc
    by_cases hb : id = "b"
    · simp [hb] at hc; subst hc; exact h2
    · by_cases ha : id = "a"
      · simp [ha] at hc; subst hc; exact h0
      · simp [hb, ha] at hc
  · intro id1 id2 c1 c2 h1 h2 heq
    rw [h, twoClients_clients] at h1 h2
    by_cases hb1 : id1 = "b" <;> by_cases ha1 : id1 = "a" <;>
      by_cases hb2 : id2 = "b" <;> by_cases ha2 : id2 = "a" <;>
      simp_all [clientA, clientB]
    all_goals (subst h1; subst h2; simp at heq)

theorem twoClients_chan0 : twoClients.chans 0 = makeChan queueCap := by
  simp [twoClients, registerStep, wsHandlerMake, setChan]

theorem twoClients_chan2 : twoClients.chans 2 = makeChan queueCap := by
  simp [twoClients, registerStep, wsHandlerMake, setChan]

/-- From a state where every registered queue is open with room, the
broadcast loop keeps the map and pushes `msg` on every registered queue. -/
theorem broadcastOver_room (msg : Payload) (order : List String) (s : HubState)
    (hord : RangeOrder order s) (hinv : HubInv s)
    (hroom : ∀ id c, s.clients id = some c →
      (s.chans c.MessageQueue).buf.length < (s.chans c.MessageQueue).cap) :
    ∃ s1 : HubState, broadcastOver msg order s = some s1 ∧ s1.clients = s.clients ∧
      ∀ id c, s.clients id = some c →
        s1.chans c.MessageQueue = (s.chans c.MessageQueue).push msg := by
  obtain ⟨s1, hrun, hout, hsent, _, hnone, _⟩ := broadcastOver_spec msg order s hord.1 hinv
  refine ⟨s1, hrun, ?_, ?_⟩
  · funext id
    cases hc : s.clients id with
    | none => exact hnone id hc
    | some c => exact (hsent id c ((hord.2 id).mpr ⟨c, hc⟩) hc (hroom id c hc)).1
  · intro id c hc
    exact (hsent id c ((hord.2 id).mpr ⟨c, hc⟩) hc (hroom id c hc)).2

/-- C1: broadcast step of `Manager.run` when no registered queue is full.
For every registry state (registered queues open, distinct keys holding
distinct channels), every payload `msg` and every order in which the range
yields the keys: if every registered queue holds fewer payloads than its
capacity, the step does not panic, the map of registered ids is unchanged, and
every registered queue is open and holds its previous contents followed by
`msg`. When there is room for two payloads, a second broadcast `msg2` leaves
every registered queue with its previous contents followed by `msg`, `msg2`. -/
theorem broadcast_appends_to_every_queue (msg : Payload) (order : List String) (s : HubState)
    (hord : RangeOrder order s) (hinv : HubInv s)
    (hroom : ∀ id c, s.clients id = some c →
      (s.chans c.MessageQueue).buf.length < (s.chans c.MessageQueue).cap) :
    ∃ s1 : HubState, broadcastOver msg order s = some s1 ∧ s1.clients = s.clients ∧
      (∀ id c, s.clients id = some c →
        (s1.chans c.MessageQueue).buf = (s.chans c.MessageQueue).buf ++ [msg] ∧
        (s1.chans c.MessageQueue).closed = false) ∧
      (∀ (msg2 : Payload) (order2 : List String), RangeOrder order2 s1 →
        (∀ id c, s.clients id = some c →
          (s.chans c.MessageQueue).buf.length + 1 < (s.chans c.MessageQueue).cap) →
        ∃ s2 : HubState, broadcastOver msg2 order2 s1 = some s2 ∧ s2.clients = s.clients ∧
          ∀ id c, s.clients id = some c →
            (s2.chans c.MessageQueue).buf = (s.chans c.MessageQueue).buf ++ [msg, msg2] ∧
            (s2.chans c.MessageQueue).closed = false) := by
  obtain ⟨s1, hrun, hcl, hpush⟩ := broadcastOver_room msg order s hord hinv hroom
  refine ⟨s1, hrun, hcl, ?_, ?_⟩
  · intro id c hc
    rw [hpush id c hc]
    exact ⟨rfl, hinv.1 id c hc⟩
  · intro msg2 order2 hord2 hroom2
    have hinv1 : HubInv s1 := by
      refine ⟨?_, ?_⟩
      · intro id c hc
        rw [hcl] at hc
        rw [hpush id c hc]
        exact hinv.1 id c hc
      · intro id1 id2 c1 c2 h1 h2 heq
        rw [hcl] at h1 h2
        exact hinv.2 id1 id2 c1 c2 h1 h2 heq
    have hroom1 : ∀ id c, s1.clients id = some c →
        (s1.chans c.MessageQueue).buf.length < (s1.chans c.MessageQueue).cap := by
      intro id c hc
      rw [hcl] at hc
      rw [hpush id c hc]
      have := hroom2 id c hc
      simpa [Chan.push] using this
    obtain ⟨s2, hrun2, hcl2, hpush2⟩ := broadcastOver_room msg2 order2 s1 hord2 hinv1 hroom1
    refine ⟨s2, hrun2, hcl2.trans hcl, ?_⟩
    intro id c hc
    have hc1 : s1.clients id = some c := by rw [hcl]; exact hc
    rw [hpush2 id c hc1, hpush id c hc]
    refine ⟨by simp [Chan.push], ?_⟩
    exact hinv.1 id c hc

/-- Witness of C1: the registry holding `a` and `b` with empty queues,
visited in the order `b`, `a`. -/
theorem broadcast_appends_to_every_queue_witness :
    ∃ s1 : HubState, broadcastOver [104, 105] ["b", "a"] twoClients = some s1 ∧
      s1.clients = twoClients.clients ∧
      (∀ id c, twoClients.clients id = some c →
        (s1.chans c.MessageQueue).buf = (twoClients.chans c.MessageQueue).buf ++ [[104, 105]] ∧
        (s1.chans c.MessageQueue).closed = false) ∧
      (∀ (msg2 : Payload) (order2 : List String), RangeOrder order2 s1 →
        (∀ id c, twoClients.clients id = some c →
          (twoClients.chans c.MessageQueue).buf.length + 1 <
            (twoClients.chans c.MessageQueue).cap) →
        ∃ s2 : HubState, broadcastOver msg2 order2 s1 = some s2 ∧
          s2.clients = twoClients.clients ∧
          ∀ id c, twoClients.clients id = some c →
            (s2.chans c.MessageQueue).buf =
              (twoClients.chans c.MessageQueue).buf ++ [[104, 105], msg2] ∧
            (s2.chans c.MessageQueue).closed = false) :=
  broadcast_appends_to_every_queue [104, 105] ["b", "a"] twoClients
    (twoClients_rangeOrder twoClients rfl)
    (twoClients_inv twoClients rfl (by rw [twoClients_chan0]; rfl) (by rw [twoClients_chan2]; rfl))
    (by
      intro id c hc
      rw [twoClients_clients] at hc
      by_cases hb : id = "b"
      · simp [hb] at hc; subst hc
        show (twoClients.chans 2).buf.length < (twoClients.chans 2).cap
        rw [twoClients_chan2]; decide
      · by_cases ha : id = "a"
        · simp [ha] at hc; subst hc
          show (twoClients.chans 0).buf.length < (twoClients.chans 0).cap
          rw [twoClients_chan0]; decide
        · simp [hb, ha] at hc)

/-- C2: broadcast step of `Manager.run` with full queues. For every registry
state (registered queues open, distinct keys holding distinct channels), every
payload `msg` and every order of the range, the step does not panic and, for
every registered client: if its queue is full (as many payloads as its
capacity, 256 for a queue made by `wsHandler`) its id is removed from the map
and its queue is closed with its contents as before, `msg` not added;
otherwise it stays registered and its open queue holds the previous contents
followed by `msg`. No id is added to the map. -/
theorem broadcast_evicts_exactly_the_full (msg : Payload) (order : List String) (s : HubState)
    (hord : RangeOrder order s) (hinv : HubInv s) :
    ∃ s1 : HubState, broadcastOver msg order s = some s1 ∧
      (∀ id c, s.clients id = some c →
        ((s.chans c.MessageQueue).cap ≤ (s.chans c.MessageQueue).buf.length →
          s1.clients id = none ∧
          (s1.chans c.MessageQueue).closed = true ∧
          (s1.chans c.MessageQueue).buf = (s.chans c.MessageQueue).buf) ∧
        ((s.chans c.MessageQueue).buf.length < (s.chans c.MessageQueue).cap →
          s1.clients id = some c ∧
          (s1.chans c.MessageQueue).closed = false ∧
          (s1.chans c.MessageQueue).buf = (s.chans c.MessageQueue).buf ++ [msg])) ∧
      (∀ id, s.clients id = none → s1.clients id = none) := by
  obtain ⟨s1, hrun, _, hsent, hfull, hnone, _⟩ := broadcastOver_spec msg order s hord.1 hinv
  refine ⟨s1, hrun, ?_, hnone⟩
  intro id c hc
  have hmem : id ∈ order := (hord.2 id).mpr ⟨c, hc⟩
  constructor
  · intro hle
    obtain ⟨h1, h2⟩ := hfull id c hmem hc (Nat.not_lt.mpr hle)
    rw [h2]
    exact ⟨h1, rfl, rfl⟩
  · intro hlt
    obtain ⟨h1, h2⟩ := hsent id c hmem hc hlt
    rw [h2]
    exact ⟨h1, hinv.1 id c hc, rfl⟩

theorem oneFull_chan0 :
    oneFull.chans 0 = { buf := List.replicate 256 [120], cap := queueCap, closed := false } := rfl

theorem oneFull_chan2 : oneFull.chans 2 = makeChan queueCap := rfl

/-- Witness of C2: the queue of `a` holds 256 payloads, the queue of `b` is
empty. -/
theorem broadcast_evicts_exactly_the_full_witness :
    ∃ s1 : HubState, broadcastOver [104, 105] ["b", "a"] oneFull = some s1 ∧
      (∀ id c, oneFull.clients id = some c →
        ((oneFull.chans c.MessageQueue).cap ≤ (oneFull.chans c.MessageQueue).buf.length →
          s1.clients id = none ∧
          (s1.chans c.MessageQueue).closed = true ∧
          (s1.chans c.MessageQueue).buf = (oneFull.chans c.MessageQueue).buf) ∧
        ((oneFull.chans c.MessageQueue).buf.length < (oneFull.chans c.MessageQueue).cap →
          s1.clients id = some c ∧
          (s1.chans c.MessageQueue).closed = false ∧
          (s1.chans c.MessageQueue).buf =
            (oneFull.chans c.MessageQueue).buf ++ [[104, 105]])) ∧
      (∀ id, oneFull.clients id = none → s1.clients id = none) :=
  broadcast_evicts_exactly_the_full [104, 105] ["b", "a"] oneFull
    (twoClients_rangeOrder oneFull rfl)
    (twoClients_inv oneFull rfl (by rw [oneFull_chan0]) (by rw [oneFull_chan2]; rfl))

/-! ## Unregistration and registration -/

theorem deleteClient_same (clients : String → Option Client) (id : String) :
    deleteClient clients id id = none := by
  simp [deleteClient]

theorem deleteClient_other (clients : String → Option Client) (id k : String) (h : k ≠ id) :
    deleteClient clients id k = clients k := by
  simp [deleteClient, h]

theorem unregisterStep_absent (c : Client) (s : HubState) (h : s.clients c.ID = none) :
    unregisterStep c s = some s := by
  simp [unregisterStep, h]

/-- C3: the unregister step of `Manager.run` is idempotent. For every hub
state and every client `c`: whenever processing `unregister(c)` yields a
state, processing it again yields that same state (same map, same channels);
run twice it gives the result of running it once; and when `c.ID` is not a key
of the map the step returns the state unchanged, without panic. -/
theorem unregister_idempotent (c : Client) (s : HubState) :
    (∀ s1, unregisterStep c s = some s1 → unregisterStep c s1 = some s1) ∧
    (unregisterStep c s).bind (unregisterStep c) = unregisterStep c s ∧
    (s.clients c.ID = none → unregisterStep c s = some s) := by
  have key : ∀ s1, unregisterStep c s = some s1 → unregisterStep c s1 = some s1 := by
    intro s1 h
    cases hc : s.clients c.ID with
    | none =>
      rw [unregisterStep_absent c s hc] at h
      cases h
      exact unregisterStep_absent c s hc
    | some d =>
      simp only [unregisterStep, hc, closeChan] at h
      by_cases hcl : (s.chans c.MessageQueue).closed = true
      · simp [hcl] at h
      · simp [hcl] at h
        subst h
        exact unregisterStep_absent c _ (deleteClient_same _ _)
  refine ⟨key, ?_, unregisterStep_absent c s⟩
  cases h : unregisterStep c s with
  | none => rfl
  | some s1 => exact key s1 h

/-- Witness of C3: `a` unregisters from the registry holding `a` and `b`. -/
theorem unregister_idempotent_witness :
    (∀ s1, unregisterStep clientA twoClients = some s1 →
      unregisterStep clientA s1 = some s1) ∧
    (unregisterStep clientA twoClients).bind (unregisterStep clientA) =
      unregisterStep clientA twoClients ∧
    (twoClients.clients clientA.ID = none → unregisterStep clientA twoClients = some twoClients) :=
  unregister_idempotent clientA twoClients

/-- Counterexample to C6: `a` is registered to `clientA`, whose queue is open;
after `register(clientA2)`, a client with the same id, the map holds
`clientA2` under `a` and the queue of `clientA` is still open: the old record
is dropped without teardown. -/
theorem register_duplicate_no_teardown :
    twoClients.clients clientA2.ID = some clientA ∧
    (twoClients.chans clientA.MessageQueue).closed = false ∧
    (registerStep clientA2 twoClients).clients clientA2.ID = some clientA2 ∧
    ((registerStep clientA2 twoClients).chans clientA.MessageQueue).closed = false := by
  refine ⟨by simp [twoClients_clients, clientA2], ?_, ?_, ?_⟩
  · show (twoClients.chans 0).closed = false
    rw [twoClients_chan0]; rfl
  · simp [registerStep, insertClient]
  · show (twoClients.chans 0).closed = false
    rw [twoClients_chan0]; rfl

/-- C6 as amended: for every hub state and every client `cNew` (whether or
not `cNew.ID` is already registered to another client), the register step
leaves `cNew.ID` mapped to `cNew`, leaves every other entry as it was, and
leaves every channel, the queue of a replaced client included, exactly as it
was: nothing is closed. -/
theorem register_overwrites_without_closing (cNew : Client) (s : HubState) :
    (registerStep cNew s).clients cNew.ID = some cNew ∧
    (∀ id, id ≠ cNew.ID → (registerStep cNew s).clients id = s.clients id) ∧
    (registerStep cNew s).chans = s.chans := by
  refine ⟨by simp [registerStep, insertClient], ?_, rfl⟩
  intro id hne
  simp [registerStep, insertClient, hne]

/-! ## The invariant of hub runs -/

theorem traceInv_push (all fut : List Client) (s : HubState) (q : Nat) (msg : Payload)
    (h : TraceInv all fut s) :
    TraceInv all fut ⟨s.clients, setChan s.chans q ((s.chans q).push msg)⟩ := by
  have hcl : ∀ r, (setChan s.chans q ((s.chans q).push msg) r).closed = (s.chans r).closed := by
    intro r
    by_cases hr : r = q
    · subst hr; rw [setChan_same]; rfl
    · rw [setChan_other _ _ _ _ hr]
  refine ⟨?_, ?_⟩
  · intro id c hc
    obtain ⟨h1, h2, h3, h4⟩ := h.1 id c hc
    exact ⟨h1, h2, h3, (hcl _).trans h4⟩
  · intro c hc
    obtain ⟨h1, h2⟩ := h.2 c hc
    exact ⟨h1, (hcl _).trans h2⟩

theorem traceInv_evict (all fut : List Client) (s : HubState) (id : String) (c : Client)
    (hall : ∀ a, a ∈ all → ∀ b, b ∈ all → a.MessageQueue = b.MessageQueue → a = b)
    (h : TraceInv all fut s) (hc : s.clients id = some c) :
    TraceInv all fut
      ⟨deleteClient s.clients id, setChan s.chans c.MessageQueue ((s.chans c.MessageQueue).shut)⟩ := by
  obtain ⟨hid, hcall, hcfut, _⟩ := h.1 id c hc
  refine ⟨?_, ?_⟩
  · intro id1 c1 hc1
    have hc1d : deleteClient s.clients id id1 = some c1 := hc1
    have hne : id1 ≠ id := by
      intro e
      rw [e, deleteClient_same] at hc1d
      exact absurd hc1d (by simp)
    have hc1s : s.clients id1 = some c1 := by
      rw [← deleteClient_other s.clients id id1 hne]; exact hc1d
    obtain ⟨h1, h2, h3, h4⟩ := h.1 id1 c1 hc1s
    refine ⟨h1, h2, h3, ?_⟩
    have hq : c1.MessageQueue ≠ c.MessageQueue := by
      intro e
      have := hall c1 h2 c hcall e
      apply hne
      rw [← h1, ← hid, this]
    show (setChan s.chans c.MessageQueue _ c1.MessageQueue).closed = false
    rw [setChan_other _ _ _ _ hq]; exact h4
  · intro c1 hc1
    obtain ⟨h1, h2⟩ := h.2 c1 hc1
    refine ⟨h1, ?_⟩
    have hq : c1.MessageQueue ≠ c.MessageQueue := by
      intro e
      have := hall c1 h1 c hcall e
      exact hcfut (this ▸ hc1)
    show (setChan s.chans c.MessageQueue _ c1.MessageQueue).closed = false
    rw [setChan_other _ _ _ _ hq]; exact h2

theorem traceInv_broadcast (all fut : List Client) (msg : Payload)
    (hall : ∀ a, a ∈ all → ∀ b, b ∈ all → a.MessageQueue = b.MessageQueue → a = b)
    (l : List String) :
    ∀ s : HubState, TraceInv all fut s →
      ∃ s1 : HubState, broadcastOver msg l s = some s1 ∧ TraceInv all fut s1 := by
  induction l with
  | nil => intro s h; exact ⟨s, rfl, h⟩
  | cons a rest ih =>
    intro s h
    cases hca : s.clients a with
    | none =>
      obtain ⟨s1, h1, h2⟩ := ih s h
      exact ⟨s1, by simp [broadcastOver, hca, h1], h2⟩
    | some c =>
      have hopen : (s.chans c.MessageQueue).closed = false := (h.1 a c hca).2.2.2
      by_cases hlt : (s.chans c.MessageQueue).buf.length < (s.chans c.MessageQueue).cap
      · obtain ⟨s1, h1, h2⟩ := ih _ (traceInv_push all fut s c.MessageQueue msg h)
        refine ⟨s1, ?_, h2⟩
        simp [broadcastOver, hca, broadcastClient_room msg a c s hopen hlt, h1]
      · obtain ⟨s1, h1, h2⟩ := ih _ (traceInv_evict all fut s a c hall h hca)
        refine ⟨s1, ?_, h2⟩
        simp [broadcastOver, hca, broadcastClient_full msg a c s hopen hlt, h1]

theorem traceInv_register (all fut : List Client) (s : HubState) (c : Client)
    (hnot : c ∉ fut) (h : TraceInv all (c :: fut) s) :
    TraceInv all fut (registerStep c s) := by
  refine ⟨?_, ?_⟩
  · intro id c1 hc1
    by_cases hid : id = c.ID
    · have : c1 = c := by
        simp [registerStep, insertClient, hid] at hc1
        exact hc1.symm
      subst this
      obtain ⟨h1, h2⟩ := h.2 c1 (List.mem_cons_self _ _)
      exact ⟨hid.symm, h1, hnot, h2⟩
    · have hc1s : s.clients id = some c1 := by
        simpa [registerStep, insertClient, hid] using hc1
      obtain ⟨h1, h2, h3, h4⟩ := h.1 id c1 hc1s
      exact ⟨h1, h2, fun hm => h3 (List.mem_cons_of_mem _ hm), h4⟩
  · intro c1 hc1
    exact h.2 c1 (List.mem_cons_of_mem _ hc1)

theorem traceInv_unregister (all fut : List Client) (s : HubState) (c : Client)
    (hid : ∀ a, a ∈ all → ∀ b, b ∈ all → a.ID = b.ID → a = b)
    (hq : ∀ a, a ∈ all → ∀ b, b ∈ all → a.MessageQueue = b.MessageQueue → a = b)
    (hc : c ∈ all) (h : TraceInv all fut s) :
    ∃ s1 : HubState, unregisterStep c s = some s1 ∧ TraceInv all fut s1 := by
  cases hreg : s.clients c.ID with
  | none => exact ⟨s, unregisterStep_absent c s hreg, h⟩
  | some d =>
    obtain ⟨h1, h2, _, h4⟩ := h.1 c.ID d hreg
    have hd : d = c := hid d h2 c hc h1
    subst hd
    refine ⟨_, ?_, traceInv_evict all fut s d.ID d hq h hreg⟩
    simp [unregisterStep, hreg, closeChan, h4]

theorem traceInv_run (all : List Client)
    (hid : ∀ a, a ∈ all → ∀ b, b ∈ all → a.ID = b.ID → a = b)
    (hq : ∀ a, a ∈ all → ∀ b, b ∈ all → a.MessageQueue = b.MessageQueue → a = b)
    (pre : List Event) :
    ∀ (post : List Event) (s : HubState),
      (registered (pre ++ post)).Nodup →
      (∀ c, c ∈ unregistered (pre ++ post) → c ∈ all) →
      TraceInv all (registered (pre ++ post)) s →
      ∃ s1 : HubState, runHub pre s = some s1 ∧ TraceInv all (registered post) s1 := by
  induction pre with
  | nil => intro post s _ _ h; exact ⟨s, rfl, h⟩
  | cons e rest ih =>
    intro post s hnd hun h
    cases e with
    | register c =>
      have hnd1 : (c :: registered (rest ++ post)).Nodup := hnd
      obtain ⟨s1, h1, h2⟩ := ih post (registerStep c s) (List.nodup_cons.mp hnd1).2 hun
        (traceInv_register all _ s c (List.nodup_cons.mp hnd1).1 h)
      exact ⟨s1, by simp [runHub, hubStep, h1], h2⟩
    | unregister c =>
      have hc : c ∈ all := hun c (List.mem_cons_self _ _)
      obtain ⟨s0, h0, hinv0⟩ := traceInv_unregister all _ s c hid hq hc h
      obtain ⟨s1, h1, h2⟩ := ih post s0 hnd (fun c1 hc1 => hun c1 (List.mem_cons_of_mem _ hc1))
        hinv0
      exact ⟨s1, by simp [runHub, hubStep, h0, h1], h2⟩
    | broadcast msg order =>
      obtain ⟨s0, h0, hinv0⟩ := traceInv_broadcast all _ msg hq order s h
      obtain ⟨s1, h1, h2⟩ := ih post s0 hnd hun hinv0
      exact ⟨s1, by simp [runHub, hubStep, h0, h1], h2⟩

theorem distinct_symm : Symmetric Distinct := by
  intro a b h
  exact ⟨fun e => h.1 e.symm, fun e => h.2 e.symm⟩

theorem distinct_inj (l : List Client) (h : l.Pairwise Distinct) :
    (∀ a, a ∈ l → ∀ b, b ∈ l → a.ID = b.ID → a = b) ∧
    (∀ a, a ∈ l → ∀ b, b ∈ l → a.MessageQueue = b.MessageQueue → a = b) := by
  constructor
  · intro a ha b hb e
    by_contra hne
    exact (h.forall distinct_symm ha hb hne).1 e
  · intro a ha b hb e
    by_contra hne
    exact (h.forall distinct_symm ha hb hne).2 e

/-- C9: invariant of the hub loop. For every finite sequence of hub events
processed from an empty registry, where the registered clients have pairwise
different ids and pairwise different queues that are open at the start, and
every unregister event names a client the sequence registers: whatever the
order in which each broadcast visits the keys, after every prefix of the
sequence the loop has not panicked (it never closed a closed queue and never
sent on a closed queue, so no queue was closed twice), every client in the
registry has an open queue, and the registry invariant `HubInv` holds. -/
theorem hub_run_registered_queues_open (events : List Event) (s0 : HubState)
    (hempty : ∀ id, s0.clients id = none)
    (hfresh : (registered events).Pairwise Distinct)
    (hopen : ∀ c, c ∈ registered events → (s0.chans c.MessageQueue).closed = false)
    (hunreg : ∀ c, c ∈ unregistered events → c ∈ registered events) :
    ∀ pre post, events = pre ++ post →
      ∃ s : HubState, runHub pre s0 = some s ∧
        (∀ id c, s.clients id = some c → (s.chans c.MessageQueue).closed = false) ∧
        HubInv s := by
  intro pre post hev
  subst hev
  obtain ⟨hid, hq⟩ := distinct_inj _ hfresh
  have hnd : (registered (pre ++ post)).Nodup := by
    refine List.Pairwise.imp ?_ hfresh
    intro a b hab e
    exact hab.1 (by rw [e])
  have hinit : TraceInv (registered (pre ++ post)) (registered (pre ++ post)) s0 := by
    refine ⟨?_, fun c hc => ⟨hc, hopen c hc⟩⟩
    intro id c hc
    rw [hempty id] at hc
    exact absurd hc (by simp)
  obtain ⟨s, hrun, hinv⟩ := traceInv_run _ hid hq pre post s0 hnd hunreg hinit
  have hop : ∀ id c, s.clients id = some c → (s.chans c.MessageQueue).closed = false :=
    fun id c hc => (hinv.1 id c hc).2.2.2
  refine ⟨s, hrun, hop, hop, ?_⟩
  intro id1 id2 c1 c2 h1 h2 heq
  obtain ⟨e1, m1, _, _⟩ := hinv.1 id1 c1 h1
  obtain ⟨e2, m2, _, _⟩ := hinv.1 id2 c2 h2
  rw [← e1, ← e2, hq c1 m1 c2 m2 heq]

/-- Witness of C9: the run `sampleEvents` from the state in which the queues
of `a` and `b` have been made. -/
theorem hub_run_registered_queues_open_witness :
    ∃ s : HubState, runHub sampleEvents twoMade = some s ∧
      (∀ id c, s.clients id = some c → (s.chans c.MessageQueue).closed = false) ∧
      HubInv s :=
  hub_run_registered_queues_open sampleEvents twoMade (fun _ => rfl)
    (by simp [sampleEvents, registered, Distinct, clientA, clientB])
    (by
      intro c hc
      simp [sampleEvents, registered] at hc
      rcases hc with h | h <;> subst h <;> rfl)
    (by
      intro c hc
      simp [sampleEvents, unregistered] at hc
      simp [sampleEvents, registered]
      rcases hc with h | h <;> simp [h])
    sampleEvents [] (by simp)

/-! ## The read pump and the welcome -/

/-- Counterexample to C4: client `a` registers and gets its welcome; its read
pump then receives `ping`, and the queue of `a` changes from the welcome alone
to the welcome followed by `ping`; after a broadcast of `hello` the queue
holds the welcome, `ping` and `hello`, not only the welcome and `hello`. -/
theorem readMessages_enqueues_inbound :
    (runActions [.hub (.register clientA), .welcome clientA] madeA).queueOf 0 =
      some [welcomePayload "a"] ∧
    (runActions [.hub (.register clientA), .welcome clientA,
        .received clientA (bytesOf "ping")] madeA).queueOf 0 =
      some [welcomePayload "a", bytesOf "ping"] ∧
    (runActions echoSchedule madeA).queueOf 0 =
      some [welcomePayload "a", bytesOf "ping", bytesOf "hello"] ∧
    (runActions echoSchedule madeA).queueOf 0 ≠
      some [welcomePayload "a", bytesOf "hello"] := by
  decide

/-- C4 as amended: the read pump is a producer of its own connection's queue.
For every client, every inbound payload the read pump receives and every
state in which the client's queue is open and not full, the iteration
completes and appends the payload at the tail of that queue; the registry and
every other channel are unchanged. -/
theorem readMessages_echoes_to_own_queue (client : Client) (message : Payload) (s : HubState)
    (hopen : (s.chans client.MessageQueue).closed = false)
    (hroom : (s.chans client.MessageQueue).buf.length < (s.chans client.MessageQueue).cap) :
    ∃ s1 : HubState, readMessagesStep client message s = .ok s1 ∧
      s1.clients = s.clients ∧
      (s1.chans client.MessageQueue).buf = (s.chans client.MessageQueue).buf ++ [message] ∧
      (s1.chans client.MessageQueue).closed = false ∧
      (∀ r, r ≠ client.MessageQueue → s1.chans r = s.chans r) := by
  refine ⟨⟨s.clients, setChan s.chans client.MessageQueue
    ((s.chans client.MessageQueue).push message)⟩, ?_, rfl, ?_, ?_, ?_⟩
  · simp [readMessagesStep, blockingSend, chanSend, hopen, hroom]
  · show (setChan s.chans client.MessageQueue _ client.MessageQueue).buf = _
    rw [setChan_same]; rfl
  · show (setChan s.chans client.MessageQueue _ client.MessageQueue).closed = false
    rw [setChan_same]; exact hopen
  · intro r hr
    exact setChan_other _ _ _ _ hr

/-- Witness of C4 as amended: the read pump of `a` receives `ping` in the
registry holding `a` and `b` with empty queues. -/
theorem readMessages_echoes_to_own_queue_witness :
    ∃ s1 : HubState, readMessagesStep clientA (bytesOf "ping") twoClients = .ok s1 ∧
      s1.clients = twoClients.clients ∧
      (s1.chans clientA.MessageQueue).buf =
        (twoClients.chans clientA.MessageQueue).buf ++ [bytesOf "ping"] ∧
      (s1.chans clientA.MessageQueue).closed = false ∧
      (∀ r, r ≠ clientA.MessageQueue → s1.chans r = twoClients.chans r) :=
  readMessages_echoes_to_own_queue clientA (bytesOf "ping") twoClients
    (by show (twoClients.chans 0).closed = false; rw [twoClients_chan0]; rfl)
    (by
      show (twoClients.chans 0).buf.length < (twoClients.chans 0).cap
      rw [twoClients_chan0]; decide)

/-- C5 on the failing schedule: the hub processes `register(a)` and then a
broadcast of `hello` before the handler of `a` reaches its welcome send; the
queue of `a` then holds `hello` first and the welcome second. -/
theorem welcome_after_broadcast :
    (runActions lateWelcome madeA).queueOf clientA.MessageQueue =
      some [bytesOf "hello", welcomePayload "a"] ∧
    ((runActions lateWelcome madeA).queueOf clientA.MessageQueue).map List.head? ≠
      some (some (welcomePayload clientA.ID)) := by
  decide

/-! ## The liveness monitor -/

theorem quitDue_some (env : PingEnv) (clients : String → Option Client) (id : String)
    (c : Client) (hc : clients id = some c) :
    quitDue env clients id = (timedOut env c || env.writeControlErr c.Conn) := by
  simp [quitDue, hc]

theorem probeDue_some (env : PingEnv) (clients : String → Option Client) (id : String)
    (c : Client) (hc : clients id = some c) :
    probeDue env clients id = !timedOut env c := by
  simp [probeDue, hc]

/-- The loop body when the `Quit` send, if any, finds a receiver. -/
theorem pingClient_next (env : PingEnv) (clients : String → Option Client) (id : String)
    (c : Client) (log : PassLog) (hc : clients id = some c)
    (hrecv : quitDue env clients id = true → env.receiving c.Quit = true) :
    pingClient env id c log =
      .next ⟨log.probed ++ [id].filter (probeDue env clients),
             log.signalled ++ [id].filter (quitDue env clients)⟩ := by
  rw [quitDue_some env clients id c hc] at hrecv
  by_cases ht : env.now - c.LastPong > 60 * second
  · have hto : timedOut env c = true := by simp [timedOut, ht]
    have hr := hrecv (by simp [hto])
    simp [pingClient, quitSend, ht, hr, List.filter, quitDue_some env clients id c hc,
      probeDue_some env clients id c hc, hto]
  · have hto : timedOut env c = false := by simp [timedOut, ht]
    by_cases he : env.writeControlErr c.Conn = true
    · have hr := hrecv (by simp [he])
      simp [pingClient, quitSend, ht, hr, he, List.filter, quitDue_some env clients id c hc,
        probeDue_some env clients id c hc, hto]
    · simp [pingClient, ht, he, List.filter, quitDue_some env clients id c hc,
        probeDue_some env clients id c hc, hto]

/-- A pass in which every `Quit` send finds a receiver runs to `Unlock`; it
pings the visited ids that are registered and not timed out and signals the
visited ids that are timed out or whose ping failed. -/
theorem pingAllOver_complete (env : PingEnv) (clients : String → Option Client)
    (l : List String) :
    ∀ log : PassLog,
      (∀ id c, id ∈ l → clients id = some c → quitDue env clients id = true →
        env.receiving c.Quit = true) →
      pingAllOver env clients l log =
        .unlocked ⟨log.probed ++ l.filter (probeDue env clients),
                   log.signalled ++ l.filter (quitDue env clients)⟩ := by
  induction l with
  | nil => intro log _; simp [pingAllOver]
  | cons a rest ih =>
    intro log hrecv
    have hrest : ∀ id c, id ∈ rest → clients id = some c → quitDue env clients id = true →
        env.receiving c.Quit = true :=
      fun id c hid => hrecv id c (List.mem_cons_of_mem _ hid)
    cases hca : clients a with
    | none =>
      have h1 : probeDue env clients a = false := by simp [probeDue, hca]
      have h2 : quitDue env clients a = false := by simp [quitDue, hca]
      simp only [pingAllOver, hca]
      rw [ih log hrest]
      simp [List.filter, h1, h2]
    | some c =>
      simp only [pingAllOver, hca]
      rw [pingClient_next env clients a c log hca (hrecv a c (List.mem_cons_self _ _) hca)]
      simp only []
      rw [ih _ hrest]
      simp only [List.append_assoc, List.filter_cons, List.filter_nil]
      cases probeDue env clients a <;> cases quitDue env clients a <;> simp

/-- Whatever happens to a pass, an id it signalled was due a signal and an id
it pinged was registered and not timed out. -/
theorem pingAllOver_sound (env : PingEnv) (clients : String → Option Client)
    (l : List String) :
    ∀ log : PassLog,
      (∀ id, id ∈ (pingAllOver env clients l log).log.signalled →
        id ∈ log.signalled ∨ quitDue env clients id = true) ∧
      (∀ id, id ∈ (pingAllOver env clients l log).log.probed →
        id ∈ log.probed ∨ probeDue env clients id = true) := by
  induction l with
  | nil => intro log; exact ⟨fun id h => Or.inl h, fun id h => Or.inl h⟩
  | cons a rest ih =>
    intro log
    cases hca : clients a with
    | none =>
      simp only [pingAllOver, hca]
      exact ih log
    | some c =>
      simp only [pingAllOver, hca]
      have hq := quitDue_some env clients a c hca
      have hp := probeDue_some env clients a c hca
      by_cases ht : env.now - c.LastPong > 60 * second
      · have hto : timedOut env c = true := by simp [timedOut, ht]
        by_cases hr : env.receiving c.Quit = true
        · have hb : pingClient env a c log = .next ⟨log.probed, log.signalled ++ [a]⟩ := by
            simp [pingClient, quitSend, ht, hr]
          rw [hb]
          obtain ⟨i1, i2⟩ := ih ⟨log.probed, log.signalled ++ [a]⟩
          refine ⟨?_, i2⟩
          intro id hid
          rcases i1 id hid with h | h
          · rcases List.mem_append.mp h with h | h
            · exact Or.inl h
            · right
              rw [List.mem_singleton.mp h, hq, hto]; rfl
          · exact Or.inr h
        · have hb : pingClient env a c log = .stuck log := by
            simp [pingClient, quitSend, ht, hr]
          rw [hb]
          exact ⟨fun id h => Or.inl h, fun id h => Or.inl h⟩
      · have hto : timedOut env c = false := by simp [timedOut, ht]
        have hpa : probeDue env clients a = true := by rw [hp, hto]; rfl
        by_cases he : env.writeControlErr c.Conn = true
        · by_cases hr : env.receiving c.Quit = true
          · have hb : pingClient env a c log =
                .next ⟨log.probed ++ [a], log.signalled ++ [a]⟩ := by
              simp [pingClient, quitSend, ht, hr, he]
            rw [hb]
            obtain ⟨i1, i2⟩ := ih ⟨log.probed ++ [a], log.signalled ++ [a]⟩
            constructor
            · intro id hid
              rcases i1 id hid with h | h
              · rcases List.mem_append.mp h with h | h
                · exact Or.inl h
                · right
                  rw [List.mem_singleton.mp h, hq, he]; simp
              · exact Or.inr h
            · intro id hid
              rcases i2 id hid with h | h
              · rcases List.mem_append.mp h with h | h
                · exact Or.inl h
                · right
                  rw [List.mem_singleton.mp h]; exact hpa
              · exact Or.inr h
          · have hb : pingClient env a c log = .stuck ⟨log.probed ++ [a], log.signalled⟩ := by
              simp [pingClient, quitSend, ht, hr, he]
            rw [hb]
            refine ⟨fun id h => Or.inl h, ?_⟩
            intro id hid
            rcases List.mem_append.mp hid with h | h
            · exact Or.inl h
            · right
              rw [List.mem_singleton.mp h]; exact hpa
        · have hb : pingClient env a c log = .next ⟨log.probed ++ [a], log.signalled⟩ := by
            simp [pingClient, ht, he]
          rw [hb]
          obtain ⟨i1, i2⟩ := ih ⟨log.probed ++ [a], log.signalled⟩
          refine ⟨i1, ?_⟩
          intro id hid
          rcases i2 id hid with h | h
          · rcases List.mem_append.mp h with h | h
            · exact Or.inl h
            · right
              rw [List.mem_singleton.mp h]; exact hpa
          · exact Or.inr h

theorem quitDue_iff (env : PingEnv) (clients : String → Option Client) (id : String)
    (c : Client) (hc : clients id = some c) :
    quitDue env clients id = true ↔
      (env.now - c.LastPong > 60 * second ∨ env.writeControlErr c.Conn = true) := by
  simp [quitDue_some env clients id c hc, timedOut]

theorem probeDue_iff (env : PingEnv) (clients : String → Option Client) (id : String)
    (c : Client) (hc : clients id = some c) :
    probeDue env clients id = true ↔ env.now - c.LastPong ≤ 60 * second := by
  simp [probeDue_some env clients id c hc, timedOut]

theorem due_registered (env : PingEnv) (clients : String → Option Client) (id : String)
    (h : quitDue env clients id = true ∨ probeDue env clients id = true) :
    ∃ c, clients id = some c := by
  cases hc : clients id with
  | none => simp [quitDue, probeDue, hc] at h
  | some c => exact ⟨c, rfl⟩

/-- One tick of `Manager.pingAll` at time `env.now`, the range visiting
every registered id once. In every pass, blocked or not, an id whose `Quit`
send was delivered belongs to a registered client with
`now - LastPong > 60s` or a failed ping, and an id that was pinged belongs to
a registered client with `now - LastPong <= 60s`; so a client that answered
within 60s and whose ping succeeds is never signalled. When the write pump of
every client due a signal is receiving on `Quit`, the pass runs to `Unlock`
and, for every registered client, `Quit` is signalled (once) if and only if
`now - LastPong > 60s` or its ping failed, and a ping is written (once) if and
only if `now - LastPong <= 60s`. -/
theorem pingAllOver_exact_when_received (env : PingEnv) (s : HubState) (order : List String)
    (hord : RangeOrder order s) :
    (∀ id, id ∈ (pingAllOver env s.clients order emptyLog).log.signalled →
      ∃ c, s.clients id = some c ∧
        (env.now - c.LastPong > 60 * second ∨ env.writeControlErr c.Conn = true)) ∧
    (∀ id, id ∈ (pingAllOver env s.clients order emptyLog).log.probed →
      ∃ c, s.clients id = some c ∧ env.now - c.LastPong ≤ 60 * second) ∧
    ((∀ id c, s.clients id = some c →
        (env.now - c.LastPong > 60 * second ∨ env.writeControlErr c.Conn = true) →
        env.receiving c.Quit = true) →
      ∃ log : PassLog, pingAllOver env s.clients order emptyLog = .unlocked log ∧
        log.signalled.Nodup ∧ log.probed.Nodup ∧
        ∀ id c, s.clients id = some c →
          (id ∈ log.signalled ↔
            (env.now - c.LastPong > 60 * second ∨ env.writeControlErr c.Conn = true)) ∧
          (id ∈ log.probed ↔ env.now - c.LastPong ≤ 60 * second)) := by
  obtain ⟨hs, hp⟩ := pingAllOver_sound env s.clients order emptyLog
  refine ⟨?_, ?_, ?_⟩
  · intro id hid
    rcases hs id hid with h | h
    · simp [emptyLog] at h
    · obtain ⟨c, hc⟩ := due_registered env s.clients id (Or.inl h)
      exact ⟨c, hc, (quitDue_iff env s.clients id c hc).mp h⟩
  · intro id hid
    rcases hp id hid with h | h
    · simp [emptyLog] at h
    · obtain ⟨c, hc⟩ := due_registered env s.clients id (Or.inr h)
      exact ⟨c, hc, (probeDue_iff env s.clients id c hc).mp h⟩
  · intro hrecv
    have hrun := pingAllOver_complete env s.clients order emptyLog
      (fun id c _ hc hdue => hrecv id c hc ((quitDue_iff env s.clients id c hc).mp hdue))
    refine ⟨_, hrun, ?_, ?_, ?_⟩
    · simpa [emptyLog] using hord.1.filter _
    · simpa [emptyLog] using hord.1.filter _
    · intro id c hc
      have hmem : id ∈ order := (hord.2 id).mpr ⟨c, hc⟩
      constructor
      · simp only [emptyLog, List.nil_append, List.mem_filter, hmem, true_and]
        exact quitDue_iff env s.clients id c hc
      · simp only [emptyLog, List.nil_append, List.mem_filter, hmem, true_and]
        exact probeDue_iff env s.clients id c hc

/-- The tick at exactly 60 seconds over `a` and `b`, where the ping to `a`
fails and both write pumps are receiving, runs to `Unlock`. -/
theorem pingAllOver_exact_at_boundary :
    ∃ log : PassLog,
      pingAllOver tickBoundary twoClients.clients ["b", "a"] emptyLog = .unlocked log ∧
      log.signalled.Nodup ∧ log.probed.Nodup ∧
      ∀ id c, twoClients.clients id = some c →
        (id ∈ log.signalled ↔
          (tickBoundary.now - c.LastPong > 60 * second ∨
            tickBoundary.writeControlErr c.Conn = true)) ∧
        (id ∈ log.probed ↔ tickBoundary.now - c.LastPong ≤ 60 * second) :=
  (pingAllOver_exact_when_received tickBoundary twoClients ["b", "a"]
    (twoClients_rangeOrder twoClients rfl)).2.2 (fun _ _ _ _ => rfl)

/-- A pass that meets a registered client due a signal whose `Quit` channel
has no receiver never reaches `Unlock`. -/
theorem pingAllOver_blocks (env : PingEnv) (clients : String → Option Client)
    (id : String) (c : Client) (hc : clients id = some c)
    (hdue : env.now - c.LastPong > 60 * second ∨ env.writeControlErr c.Conn = true)
    (hrecv : env.receiving c.Quit = false) (l : List String) :
    id ∈ l → ∀ log : PassLog, ∃ id1 log1, pingAllOver env clients l log = .blocked id1 log1 := by
  induction l with
  | nil => intro h; simp at h
  | cons a rest ih =>
    intro hmem log
    cases hca : clients a with
    | none =>
      have hne : id ≠ a := by
        intro e; rw [e, hca] at hc; exact absurd hc (by simp)
      have hin : id ∈ rest := by
        rcases List.mem_cons.mp hmem with h | h
        · exact absurd h hne
        · exact h
      simp only [pingAllOver, hca]
      exact ih hin log
    | some ca =>
      simp only [pingAllOver, hca]
      cases hb : pingClient env a ca log with
      | stuck log1 => exact ⟨a, log1, rfl⟩
      | next log1 =>
        have hin : id ∈ rest := by
          rcases List.mem_cons.mp hmem with h | h
          · exfalso
            rw [h, hca] at hc
            cases hc
            by_cases ht : env.now - c.LastPong > 60 * second
            · simp [pingClient, quitSend, ht, hrecv] at hb
            · rcases hdue with h1 | he
              · exact ht h1
              · simp [pingClient, quitSend, ht, he, hrecv] at hb
          · exact h
        exact ih hin log1

/-- C7 on the failing input: `a` and `b` are registered, the range visits
each of them once in the order `a`, `b`, and `b` answered within 60 seconds;
the write pump of `a` has returned, so the pass blocks in the `Quit` send to
`a`: no ping is ever written to `b`, the only ping of the pass went to `a`,
and no `Quit` was delivered. -/
theorem pingAll_blocked_pass_skips_fresh_client :
    RangeOrder ["a", "b"] twoClients ∧
    twoClients.clients "b" = some clientB ∧
    tickAfterFailure.now - clientB.LastPong ≤ 60 * second ∧
    (pingAllOver tickAfterFailure twoClients.clients ["a", "b"] emptyLog).log.probed = ["a"] ∧
    "b" ∉ (pingAllOver tickAfterFailure twoClients.clients ["a", "b"] emptyLog).log.probed ∧
    (pingAllOver tickAfterFailure twoClients.clients ["a", "b"] emptyLog).log.signalled = [] := by
  refine ⟨⟨by decide, ?_⟩, by decide, by decide, by decide, by decide, by decide⟩
  intro id
  rw [twoClients_clients]
  by_cases hb : id = "b"
  · simp [hb]
  · by_cases ha : id = "a"
    · simp [ha]
    · simp [hb, ha]

/-- C8 on the failing input: the write pump of `a` has returned after a
failed `NextWriter` (so nobody receives on its `Quit` channel and its
connection is closed), `a` is still registered, and the monitor ticks. In
either visiting order the pass blocks in the `Quit` send to `a` and never
reaches `Unlock`; visiting `a` first, `b` is never pinged. -/
theorem quit_send_to_returned_pump_blocks :
    failedPump.map (fun r => r.running) = some false ∧
    pingAllOver tickAfterFailure twoClients.clients ["a", "b"] emptyLog =
      .blocked "a" ⟨["a"], []⟩ ∧
    pingAllOver tickAfterFailure twoClients.clients ["b", "a"] emptyLog =
      .blocked "a" ⟨["b", "a"], []⟩ := by
  decide

/-! ## The write pump -/

theorem coalesce_all (qs : List Payload) :
    ∀ (ch : Chan) (w : Payload), ch.buf = qs →
      coalesce qs.length ch w =
        some (w ++ qs.flatMap (fun q => 10 :: q), { ch with buf := [] }) := by
  induction qs with
  | nil =>
    intro ch w h
    cases ch
    simp at h
    simp [coalesce, h]
  | cons q rest ih =>
    intro ch w h
    simp only [List.length_cons, coalesce, chanRecv, h]
    rw [ih { ch with buf := rest } (w ++ [10] ++ q) rfl]
    simp

/-- Counterexample to C10: the pump takes `hi` while `yo` is buffered.
When `NextWriter` fails the iteration emits no message, `hi` is gone and `yo`
stays in the queue; when closing the writer fails the iteration emits no
message and both payloads are gone from the queue. In both cases the pump
returns. -/
theorem writeMessages_write_error_emits_nothing :
    writeMessagesStep .queue { nextWriterErr := true, closeErr := false, pingErr := false }
        { buf := [[104, 105], [121, 111]], cap := queueCap, closed := false } =
      some { running := false, frames := [],
             queue := { buf := [[121, 111]], cap := queueCap, closed := false } } ∧
    writeMessagesStep .queue { nextWriterErr := false, closeErr := true, pingErr := false }
        { buf := [[104, 105], [121, 111]], cap := queueCap, closed := false } =
      some { running := false, frames := [],
             queue := { buf := [], cap := queueCap, closed := false } } := by
  decide

/-- C10 as amended: coalescing in `writeMessages`. When the write pump takes
payload `m` from a queue whose buffer is `m` followed by `qs` (in FIFO order,
`qs` possibly empty) and the transport accepts the write (`NextWriter` and the
writer's `Close` return no error), the iteration emits exactly one text
message, whose bytes are `m` followed, for each payload of `qs` in order, by
a newline byte and that payload; the queue is left with an empty buffer and
the pump goes on. -/
theorem writeMessages_coalesces (conn : ConnAnswers) (ch : Chan) (m : Payload)
    (qs : List Payload) (hbuf : ch.buf = m :: qs) (hw : conn.nextWriterErr = false)
    (hc : conn.closeErr = false) :
    writeMessagesStep .queue conn ch =
      some { running := true,
             frames := [.text (m ++ qs.flatMap (fun q => 10 :: q))],
             queue := { ch with buf := [] } } := by
  simp only [writeMessagesStep, chanRecv, hbuf, hw]
  have := coalesce_all qs { ch with buf := qs } m rfl
  simp [this, hc]

/-- Witness of C10 as amended: the pump takes `hi` while `yo` and an empty
payload are buffered, and the transport accepts the write. -/
theorem writeMessages_coalesces_witness :
    writeMessagesStep .queue { nextWriterErr := false, closeErr := false, pingErr := false }
        { buf := [[104, 105], [121, 111], []], cap := queueCap, closed := false } =
      some { running := true,
             frames := [.text ([104, 105] ++ [[121, 111], []].flatMap (fun q => 10 :: q))],
             queue := { ({ buf := [[104, 105], [121, 111], []], cap := queueCap,
                           closed := false } : Chan) with buf := [] } } :=
  writeMessages_coalesces _ _ [104, 105] [[121, 111], []] rfl rfl rfl

end WsHub
